import Mathlib

/-!
Shallow embedding of `events_deletion.py`, a sweep utility that lists
Google-Calendar events in a time window, classifies each as "passed", and
deletes passed events (and the parent series of passed recurring instances),
deduplicating by event identifier.

Conventions of the embedding:
* Python `datetime` values are the structure `PyDatetime` (naive datetimes;
  comparison is lexicographic on the fields, as in CPython).
* `datetime.strptime` for the three fixed patterns the program uses is
  modelled by `strptime13`, `strptimeISO19` and `strptimeDate`; a failed
  parse (`ValueError`) is `none`.  The inputs the program feeds to these
  parsers are anchored, fixed-width digit strings (the first comes out of the
  regex `UNTIL=(\d{8}T\d{6}Z)`, the others are RFC 3339 timestamps of the
  Calendar API), on which CPython's `strptime` accepts exactly the
  fixed-width split with field validation that these functions implement.
* `re.search(r"UNTIL=(\d{8}T\d{6}Z)", s)` is `reSearchUntil` (leftmost
  match, returning the captured group); `"RRULE" in s` is `containsSub`.
* Functions that can raise an uncaught exception return `Option`; `none`
  means the exception propagates to the caller.
* The external calendar service is a `Service` record of response
  functions; the in-memory `deleted_events` set (a Python `set` that only
  ever grows by `add`) is a duplicate-free `List String`, and the sweep
  state `SweepSt` additionally records, as ghost observables, the calls made
  to the service and the status lines printed.
-/

namespace EventsDeletion

/-! ### Digits and small string helpers -/

/-- Numeric value of a decimal digit character. -/
def digitVal (c : Char) : Nat := c.toNat - '0'.toNat

/-- Value of a two-digit field, as read by `strptime`. -/
def val2 (a b : Char) : Nat := 10 * digitVal a + digitVal b

/-- Value of a four-digit field (`%Y`), as read by `strptime`. -/
def val4 (a b c d : Char) : Nat :=
  1000 * digitVal a + 100 * digitVal b + 10 * digitVal c + digitVal d

/-- Does `hay` start with `needle`?  (Helper for Python's substring test.) -/
def listStartsWith : List Char → List Char → Bool
  | [], _ => true
  | _ :: _, [] => false
  | a :: as, b :: bs => a == b && listStartsWith as bs

/-- Python's `needle in hay` substring containment on strings. -/
def containsSub (needle : List Char) : List Char → Bool
  | [] => listStartsWith needle []
  | c :: rest => listStartsWith needle (c :: rest) || containsSub needle rest

/-! ### Python datetimes -/

/-- A naive Python `datetime` (microseconds are always zero in this
program, so they are omitted). -/
structure PyDatetime where
  year : Nat
  month : Nat
  day : Nat
  hour : Nat
  minute : Nat
  second : Nat
  deriving DecidableEq, Repr

/-- Python's `<` on datetimes: lexicographic on the fields. -/
def PyDatetime.ltb (a b : PyDatetime) : Bool :=
  if a.year ≠ b.year then decide (a.year < b.year)
  else if a.month ≠ b.month then decide (a.month < b.month)
  else if a.day ≠ b.day then decide (a.day < b.day)
  else if a.hour ≠ b.hour then decide (a.hour < b.hour)
  else if a.minute ≠ b.minute then decide (a.minute < b.minute)
  else decide (a.second < b.second)

/-- Gregorian leap year, as `calendar.isleap` / the `datetime` module. -/
def isLeap (y : Nat) : Bool := y % 4 == 0 && (y % 100 != 0 || y % 400 == 0)

/-- Days in a month of a year (the `datetime` constructor's bound). -/
def daysInMonth (y m : Nat) : Nat :=
  if m == 2 then (if isLeap y then 29 else 28)
  else if m == 4 || m == 6 || m == 9 || m == 11 then 30
  else 31

/-- Validation the `datetime` constructor performs on parsed fields; `none`
models the `ValueError` a failed `datetime.strptime` raises. -/
def validDT (y mo d h mi s : Nat) : Option PyDatetime :=
  if 1 ≤ y ∧ y ≤ 9999 ∧ 1 ≤ mo ∧ mo ≤ 12 ∧ 1 ≤ d ∧ d ≤ daysInMonth y mo
      ∧ h ≤ 23 ∧ mi ≤ 59 ∧ s ≤ 59
  then some ⟨y, mo, d, h, mi, s⟩ else none

/-- Model of `datetime.strptime(s, "%Y%m%dT%H%M")` on the 13-character
strings `\d{8}T\d{4}` the program builds (seconds default to 0). -/
def strptime13 : List Char → Option PyDatetime
  | [y1, y2, y3, y4, m1, m2, d1, d2, t, h1, h2, n1, n2] =>
    if ([y1, y2, y3, y4, m1, m2, d1, d2, h1, h2, n1, n2].all Char.isDigit) ∧ t = 'T'
    then validDT (val4 y1 y2 y3 y4) (val2 m1 m2) (val2 d1 d2) (val2 h1 h2) (val2 n1 n2) 0
    else none
  | _ => none

/-- Model of `datetime.strptime(s, "%Y-%m-%dT%H:%M:%S")` on the
19-character timestamps cut from the API's RFC 3339 `dateTime` values. -/
def strptimeISO19 : List Char → Option PyDatetime
  | [y1, y2, y3, y4, a1, m1, m2, a2, d1, d2, t, h1, h2, c1, n1, n2, c2, e1, e2] =>
    if ([y1, y2, y3, y4, m1, m2, d1, d2, h1, h2, n1, n2, e1, e2].all Char.isDigit)
        ∧ a1 = '-' ∧ a2 = '-' ∧ t = 'T' ∧ c1 = ':' ∧ c2 = ':'
    then validDT (val4 y1 y2 y3 y4) (val2 m1 m2) (val2 d1 d2) (val2 h1 h2) (val2 n1 n2)
          (val2 e1 e2)
    else none
  | _ => none

/-- Model of `datetime.strptime(s, "%Y-%m-%d")` on the API's all-day `date`
values (time defaults to midnight). -/
def strptimeDate : List Char → Option PyDatetime
  | [y1, y2, y3, y4, a1, m1, m2, a2, d1, d2] =>
    if ([y1, y2, y3, y4, m1, m2, d1, d2].all Char.isDigit) ∧ a1 = '-' ∧ a2 = '-'
    then validDT (val4 y1 y2 y3 y4) (val2 m1 m2) (val2 d1 d2) 0 0 0
    else none
  | _ => none

/-! ### The `UNTIL` regex -/

/-- Match of `UNTIL=(\d{8}T\d{6}Z)` anchored at the head of the input,
returning the captured group (the pattern is a fixed shape, so at a given
position there is at most one match). -/
def matchUntilAt : List Char → Option (List Char)
  | 'U' :: 'N' :: 'T' :: 'I' :: 'L' :: '=' :: d1 :: d2 :: d3 :: d4 :: d5 :: d6 :: d7 :: d8
      :: t :: e1 :: e2 :: e3 :: e4 :: e5 :: e6 :: z :: _ =>
    if ([d1, d2, d3, d4, d5, d6, d7, d8, e1, e2, e3, e4, e5, e6].all Char.isDigit)
        ∧ t = 'T' ∧ z = 'Z'
    then some [d1, d2, d3, d4, d5, d6, d7, d8, t, e1, e2, e3, e4, e5, e6, z]
    else none
  | _ => none

/-- Model of `re.search(r"UNTIL=(\d{8}T\d{6}Z)", s, re.M)`: the captured
group of the leftmost match, or `none` (the `re.M` flag is irrelevant, the
pattern has no anchors). -/
def reSearchUntil : List Char → Option (List Char)
  | [] => none
  | c :: rest =>
    match matchUntilAt (c :: rest) with
    | some g => some g
    | none => reSearchUntil rest

/-! ### Events -/

/-- The `start`/`end` sub-object of an API event: either of the keys
`dateTime` and `date` may be present. -/
structure EventTime where
  dateTime : Option String
  date : Option String
  deriving DecidableEq, Repr

/-- An API event object, restricted to the keys the program reads.  The
Calendar API always populates `id`; the other keys are optional (`none`
models a missing key). -/
structure Event where
  id : String
  summary : Option String
  recurringEventId : Option String
  recurrence : Option (List String)
  start : Option EventTime
  end_ : Option EventTime
  deriving DecidableEq, Repr

/-- Which of `event["start"]` / `event["end"]` `_get_datetime` reads. -/
inductive DTKey
  | start
  | end_
  deriving DecidableEq, Repr

/-- Model of `EventDeletion._get_datetime`: parse the start or end of the
event, `none` when a `KeyError`/`TypeError`/`ValueError` would propagate. -/
def get_datetime (event : Event) (key : DTKey) : Option PyDatetime :=
  match (match key with | .start => event.start | .end_ => event.end_) with
  | none => none
  | some et =>
    match et.dateTime with
    | some s => strptimeISO19 (s.toList.take 19)
    | none =>
      match et.date with
      | some s => strptimeDate s.toList
      | none => none

/-- The `for rec in event["recurrence"]` loop body of
`EventDeletion._event_is_passed`: first rule whose `UNTIL` instant is
strictly before `time_max` answers `true`; a rule whose captured `UNTIL`
fails to parse raises (`none`); otherwise `false` after the loop. -/
def recurrenceScan (time_max : PyDatetime) : List String → Option Bool
  | [] => some false
  | r :: rest =>
    if containsSub "RRULE".toList r.toList then
      match reSearchUntil r.toList with
      | some g =>
        match strptime13 (g.take 13) with
        | none => none
        | some u => if u.ltb time_max then some true else recurrenceScan time_max rest
      | none => recurrenceScan time_max rest
    else recurrenceScan time_max rest

/-- Model of `EventDeletion._event_is_passed` (with `self.time_max` passed
explicitly): `none` models an uncaught exception. -/
def event_is_passed (event : Event) (time_max : PyDatetime) : Option Bool :=
  match event.recurrence with
  | some recs => recurrenceScan time_max recs
  | none => (get_datetime event .end_).map (fun d => d.ltb time_max)

/-- Model of `EventDeletion._is_recurrent`. -/
def is_recurrent (event : Event) : Bool := event.recurringEventId.isSome

/-! ### Printing helpers (`str(datetime)` and the status line) -/

/-- A natural number zero-padded to two digits. -/
def pad2 (n : Nat) : String := if n < 10 then "0" ++ toString n else toString n

/-- A natural number zero-padded to four digits. -/
def pad4 (n : Nat) : String :=
  if n < 10 then "000" ++ toString n
  else if n < 100 then "00" ++ toString n
  else if n < 1000 then "0" ++ toString n
  else toString n

/-- Python's `str` of a naive datetime with zero microseconds:
`YYYY-MM-DD HH:MM:SS`. -/
def PyDatetime.str (d : PyDatetime) : String :=
  pad4 d.year ++ "-" ++ pad2 d.month ++ "-" ++ pad2 d.day ++ " "
    ++ pad2 d.hour ++ ":" ++ pad2 d.minute ++ ":" ++ pad2 d.second

/-- Python's `datetime.isoformat()` with zero microseconds:
`YYYY-MM-DDTHH:MM:SS`. -/
def PyDatetime.isoformat (d : PyDatetime) : String :=
  pad4 d.year ++ "-" ++ pad2 d.month ++ "-" ++ pad2 d.day ++ "T"
    ++ pad2 d.hour ++ ":" ++ pad2 d.minute ++ ":" ++ pad2 d.second

/-- Python's `str.strip()`: whitespace removed from both ends. -/
def pyStrip (s : String) : String :=
  ⟨((s.toList.dropWhile Char.isWhitespace).reverse.dropWhile Char.isWhitespace).reverse⟩

/-- The status line `_delete_event` prints:
`f"{result} - {event_date} - {recurrent_tag}{summary}"`. -/
def statusLine (result : String) (event_date : PyDatetime) (event : Event) : String :=
  result ++ " - " ++ event_date.str ++ " - "
    ++ (if event.recurrence.isSome then "[Recurent event] - " else "")
    ++ pyStrip (event.summary.getD "")

/-! ### The external service and the sweep state -/

/-- Outcome of one `events().delete(...).execute()` call: success, an
`HttpError` with a status code, or any other exception. -/
inductive ApiResult
  | ok
  | httpError (status : Nat)
  | exn
  deriving DecidableEq, Repr

/-- The parameters `delete_events` passes to `events().list(...)`. -/
structure ListRequest where
  calendarId : String
  timeMin : String
  timeMax : String
  maxResults : Nat
  singleEvents : Bool
  pageToken : Option String
  orderBy : String
  deriving DecidableEq, Repr

/-- One `events().list` response: the `items` and the optional
`nextPageToken`. -/
structure Page where
  items : List Event
  nextPageToken : Option String
  deriving DecidableEq, Repr

/-- The external calendar service, as the response it gives to each of the
three calls the program makes. -/
structure Service where
  list : ListRequest → Page
  get : String → Event
  delete : String → ApiResult

/-- State of one run of the sweep.  `deleted_events` is the Python set
`self.deleted_events` (kept as a duplicate-free list, in insertion order).
The remaining fields are ghost observables of the run: every invocation of
`_delete_event` (`attempts`), the `(event id, result)` of every non-skipped
deletion attempt (`results`), the status lines printed (`lines`), the
external delete calls issued (`apiCalls`), the `events().get` calls issued
(`gets`) and the `events().list` requests issued (`requests`). -/
structure SweepSt where
  deleted_events : List String
  attempts : List String
  results : List (String × String)
  lines : List String
  apiCalls : List String
  gets : List String
  requests : List ListRequest
  deriving DecidableEq, Repr

/-- The state at the start of a run (`self.deleted_events = set()`). -/
def initSt : SweepSt := ⟨[], [], [], [], [], [], []⟩

/-- Model of `EventDeletion._delete_event`.  The early return when the id
is already in the set prints nothing and calls nothing; otherwise, in
confirmed mode the external delete is issued and its `HttpError`s are
mapped to the result strings of the source (note the trailing space in
`"FAILED "`), and only the non-raising path adds the id to the set (line
145 sits after the `execute()` call inside the `try`).  The final
`_get_datetime(event)` happens outside the `try`; its exception propagates
(`none`). -/
def delete_event (deleteF : String → ApiResult) (confirm_delete : Bool) (event : Event)
    (st : SweepSt) : Option SweepSt :=
  let st1 := { st with attempts := st.attempts ++ [event.id] }
  if st.deleted_events.contains event.id then
    some st1
  else
    let callOutcome : Option ApiResult :=
      if confirm_delete then some (deleteF event.id) else none
    let result : String :=
      match callOutcome with
      | none => "DELETED"
      | some .ok => "DELETED"
      | some (.httpError s) => if s = 410 then "ALREADY DELETED" else "FAILED "
      | some .exn => "FAILED "
    let deleted' : List String :=
      match callOutcome with
      | none => st.deleted_events ++ [event.id]
      | some .ok => st.deleted_events ++ [event.id]
      | some (.httpError _) => st.deleted_events
      | some .exn => st.deleted_events
    match get_datetime event .start with
    | none => none
    | some event_date =>
      some { st1 with
        deleted_events := deleted'
        results := st1.results ++ [(event.id, result)]
        lines := st1.lines ++ [statusLine result event_date event]
        apiCalls := st1.apiCalls ++ (if confirm_delete then [event.id] else []) }

/-- The body of the `for event in events["items"]` loop of
`delete_events`: resolve and possibly delete the parent of a recurring
instance, then possibly delete the instance itself. -/
def process_event (svc : Service) (confirm_delete : Bool) (time_max : PyDatetime)
    (event : Event) (st : SweepSt) : Option SweepSt :=
  let step1 : Option SweepSt :=
    match event.recurringEventId with
    | some rid =>
      let rec_event := svc.get rid
      let st0 := { st with gets := st.gets ++ [rid] }
      match event_is_passed rec_event time_max with
      | none => none
      | some true => delete_event svc.delete confirm_delete rec_event st0
      | some false => some st0
    | none => some st
  match step1 with
  | none => none
  | some st1 =>
    match event_is_passed event time_max with
    | none => none
    | some true => delete_event svc.delete confirm_delete event st1
    | some false => some st1

/-- The items of one page, processed in order; an exception aborts the
whole sweep (`none`). -/
def process_items (svc : Service) (confirm_delete : Bool) (time_max : PyDatetime) :
    List Event → SweepSt → Option SweepSt
  | [], st => some st
  | e :: rest, st =>
    match process_event svc confirm_delete time_max e st with
    | none => none
    | some st' => process_items svc confirm_delete time_max rest st'

/-- The request `delete_events` builds for a page: primary calendar, the
window as `isoformat() + "Z"`, pages of 100, single-instance expansion,
start-time order, and the continuation token. -/
def mkListRequest (time_min time_max : PyDatetime) (tok : Option String) : ListRequest :=
  { calendarId := "primary"
    timeMin := time_min.isoformat ++ "Z"
    timeMax := time_max.isoformat ++ "Z"
    maxResults := 100
    singleEvents := true
    pageToken := tok
    orderBy := "startTime" }

/-- Model of `EventDeletion.delete_events`, the `while True` page loop,
with explicit fuel: `none` is either an uncaught exception or fuel running
out before the loop has finished (so termination within some fuel is
`some`).  The loop stops after a page exactly when that page's
`nextPageToken` is falsy (absent or the empty string). -/
def delete_events (svc : Service) (time_min time_max : PyDatetime) (confirm_delete : Bool) :
    Nat → Option String → SweepSt → Option SweepSt
  | 0, _, _ => none
  | fuel + 1, tok, st =>
    let req := mkListRequest time_min time_max tok
    let page := svc.list req
    match process_items svc confirm_delete time_max page.items
        { st with requests := st.requests ++ [req] } with
    | none => none
    | some st' =>
      match page.nextPageToken with
      | none => some st'
      | some t =>
        if t = "" then some st'
        else delete_events svc time_min time_max confirm_delete fuel (some t) st'

/-! ### The page/token chain of a run -/

/-- Python truthiness test `if not page_token` on the continuation token. -/
def tokFalsy : Option String → Bool
  | none => true
  | some t => t == ""

/-- The continuation token returned by the `k`-th `events().list` response
of a run (the loop feeds response `k`'s token into request `k+1`; `tokChain
... 0 = none` is the token of the first request). -/
def tokChain (svc : Service) (time_min time_max : PyDatetime) : Nat → Option String
  | 0 => none
  | k + 1 =>
    (svc.list (mkListRequest time_min time_max (tokChain svc time_min time_max k))).nextPageToken

/-- The sweep state after the first `k` pages of a run have been fetched
and processed (ignoring the stopping condition of the loop). -/
def stChain (svc : Service) (time_min time_max : PyDatetime) (confirm_delete : Bool) :
    Nat → Option SweepSt
  | 0 => some initSt
  | k + 1 =>
    match stChain svc time_min time_max confirm_delete k with
    | none => none
    | some st =>
      let req := mkListRequest time_min time_max (tokChain svc time_min time_max k)
      process_items svc confirm_delete time_max (svc.list req).items
        { st with requests := st.requests ++ [req] }

/-! ### Concrete sample data (used by witnesses and counterexamples) -/

/-- A plain past event, as the API lists it. -/
def evA : Event :=
  { id := "e1"
    summary := some "Past event"
    recurringEventId := none
    recurrence := none
    start := some ⟨some "2017-03-17T08:00:00+01:00", none⟩
    end_ := some ⟨some "2017-03-17T08:30:00+01:00", none⟩ }

/-- A recurring-series definition ending 2017-03-17 (the parent
"meta-event"). -/
def evRec : Event :=
  { id := "R"
    summary := some "Weekly thing"
    recurringEventId := none
    recurrence := some ["RRULE:FREQ=WEEKLY;UNTIL=20170317T083000Z"]
    start := some ⟨some "2017-01-06T08:00:00+01:00", none⟩
    end_ := some ⟨some "2017-01-06T08:30:00+01:00", none⟩ }

/-- A single expanded instance of the series `evRec`. -/
def evInst : Event :=
  { id := "e2"
    summary := some "Weekly thing"
    recurringEventId := some "R"
    recurrence := none
    start := some ⟨some "2017-03-10T08:00:00+01:00", none⟩
    end_ := some ⟨some "2017-03-10T08:30:00+01:00", none⟩ }

/-- A recurring-series definition whose `UNTIL` uses the RFC 5545
date-only form, which the program's regex does not match. -/
def evRecDateOnly : Event :=
  { id := "R2"
    summary := some "Daily thing"
    recurringEventId := none
    recurrence := some ["RRULE:FREQ=DAILY;UNTIL=20170317"]
    start := some ⟨some "2017-01-06T08:00:00+01:00", none⟩
    end_ := some ⟨some "2017-01-06T08:30:00+01:00", none⟩ }

/-- Sample window bound `2000-01-01`. -/
def tmin0 : PyDatetime := ⟨2000, 1, 1, 0, 0, 0⟩

/-- Sample `time_max` of `2017-03-18`. -/
def tmax0 : PyDatetime := ⟨2017, 3, 18, 0, 0, 0⟩

/-- Sample `time_max` of `2017-03-01`. -/
def tmaxEarly : PyDatetime := ⟨2017, 3, 1, 0, 0, 0⟩

/-- A two-page service: page one lists `evA` with continuation token `T2`,
page two lists `evInst` (whose parent resolves to `evRec`) with no further
token; deletes succeed. -/
def svc2 : Service :=
  { list := fun req =>
      if req.pageToken = some "T2" then ⟨[evInst], none⟩ else ⟨[evA], some "T2"⟩
    get := fun _ => evRec
    delete := fun _ => .ok }

/-- A one-page service whose delete calls always raise a non-`HttpError`
exception. -/
def svcBad : Service :=
  { list := fun _ => ⟨[evA], none⟩
    get := fun _ => evRec
    delete := fun _ => .exn }

/-- A delete responder that always raises `HttpError` 410. -/
def dtest410 : String → ApiResult := fun _ => .httpError 410

/-- A delete responder that always raises a non-`HttpError` exception. -/
def dtestExn : String → ApiResult := fun _ => .exn

/-- A delete responder that always succeeds. -/
def dtestOk : String → ApiResult := fun _ => .ok

/-- The confirmed-mode variant of a service in which every delete call
succeeds (used to compare simulation mode against successful confirmed
mode). -/
def svcOk (svc : Service) : Service := { svc with delete := fun _ => .ok }

/-- The result string of a non-skipped deletion attempt, by mode and call
outcome (an abbreviation used by the lemmas below to state
`_delete_event`'s behaviour once instead of per branch). -/
def resultOf (confirm_delete : Bool) (o : ApiResult) : String :=
  if confirm_delete then
    match o with
    | .ok => "DELETED"
    | .httpError s => if s = 410 then "ALREADY DELETED" else "FAILED "
    | .exn => "FAILED "
  else "DELETED"

/-- The state after one successful confirmed deletion of `evA` from the
initial state. -/
def stC3 : SweepSt :=
  ⟨["e1"], ["e1"], [("e1", "DELETED")],
    ["DELETED - 2017-03-17 08:00:00 - Past event"], ["e1"], [], []⟩

/-- The start datetime of `evA` as `_get_datetime` parses it. -/
def dtA : PyDatetime := ⟨2017, 3, 17, 8, 0, 0⟩

/-- The final state of a confirmed run over the two-page service
`svc2` (page one: `evA`; page two: `evInst`, whose passed parent `evRec`
is deleted first). -/
def stW : SweepSt :=
  ⟨["e1", "R", "e2"], ["e1", "R", "e2"],
    [("e1", "DELETED"), ("R", "DELETED"), ("e2", "DELETED")],
    ["DELETED - 2017-03-17 08:00:00 - Past event",
      "DELETED - 2017-01-06 08:00:00 - [Recurent event] - Weekly thing",
      "DELETED - 2017-03-10 08:00:00 - Weekly thing"],
    ["e1", "R", "e2"], ["R"],
    [mkListRequest tmin0 tmax0 none, mkListRequest tmin0 tmax0 (some "T2")]⟩

/-- Equality of all run observables except the external delete calls
(used to compare a simulation-mode run with a confirmed-mode run). -/
def ModeEq (st st' : SweepSt) : Prop :=
  st.deleted_events = st'.deleted_events ∧ st.attempts = st'.attempts ∧
  st.results = st'.results ∧ st.lines = st'.lines ∧ st.gets = st'.gets ∧
  st.requests = st'.requests

/-- `ModeEq` lifted to the `Option` results of two runs: both raise, or
both return states with equal observables. -/
def ModeEqO : Option SweepSt → Option SweepSt → Prop
  | none, none => True
  | some s, some s' => ModeEq s s'
  | _, _ => False

/-- The Deleted-Set invariant of a run: the set holds exactly the
identifiers of the `DELETED` results, in order and without duplicates. -/
def DelInv (st : SweepSt) : Prop :=
  st.deleted_events = (st.results.filter (fun r => r.2 == "DELETED")).map Prod.fst ∧
  st.deleted_events.Nodup

/-! ## Helper lemmas -/

/-- A continuation token is truthy exactly when it is present and
non-empty. -/
theorem tokFalsy_eq_false_iff (t : Option String) :
    tokFalsy t = false ↔ ∃ s, t = some s ∧ s ≠ "" := by
  cases t with
  | none => simp [tokFalsy]
  | some s => simp [tokFalsy]

/-- A recurrence list none of whose rules contains a `\d{8}T\d{6}Z`-shaped
`UNTIL` scans to `false` for every `time_max`. -/
theorem recurrenceScan_noUntil (time_max : PyDatetime) :
    ∀ recs : List String, (∀ r ∈ recs, reSearchUntil r.toList = none) →
      recurrenceScan time_max recs = some false := by
  intro recs h
  induction recs with
  | nil => rfl
  | cons r rest ih =>
    have hr := h r (by simp)
    have hrest : ∀ x ∈ rest, reSearchUntil x.toList = none := fun x hx => h x (by simp [hx])
    simp only [recurrenceScan]
    by_cases hc : containsSub "RRULE".toList r.toList = true
    · rw [if_pos hc, hr]
      exact ih hrest
    · rw [if_neg hc]
      exact ih hrest

/-- Characterisation of the recurrence scan answering `true`, on lists
whose captured `UNTIL` values all parse (no `ValueError` is raised). -/
theorem recurrenceScan_eq_true_iff (time_max : PyDatetime) :
    ∀ recs : List String,
      (∀ r ∈ recs,
        ((reSearchUntil r.toList).all fun g => (strptime13 (g.take 13)).isSome) = true) →
      (recurrenceScan time_max recs = some true ↔
        ∃ r ∈ recs, containsSub "RRULE".toList r.toList = true ∧
          ∃ g u, reSearchUntil r.toList = some g ∧ strptime13 (g.take 13) = some u ∧
            u.ltb time_max = true) := by
  intro recs hparse
  induction recs with
  | nil => simp [recurrenceScan]
  | cons r rest ih =>
    have hrest : ∀ x ∈ rest,
        ((reSearchUntil x.toList).all fun g => (strptime13 (g.take 13)).isSome) = true :=
      fun x hx => hparse x (by simp [hx])
    have ih' := ih hrest
    by_cases hc : containsSub "RRULE".toList r.toList = true
    · cases hsearch : reSearchUntil r.toList with
      | none =>
        have hstep : recurrenceScan time_max (r :: rest) = recurrenceScan time_max rest := by
          simp only [recurrenceScan]
          rw [if_pos hc, hsearch]
        rw [hstep, ih']
        constructor
        · rintro ⟨x, hx, hprop⟩; exact ⟨x, by simp [hx], hprop⟩
        · rintro ⟨x, hx, hcx, g, u, hg, hu, hlt⟩
          rcases List.mem_cons.mp hx with hx | hx
          · subst hx; rw [hsearch] at hg; cases hg
          · exact ⟨x, hx, hcx, g, u, hg, hu, hlt⟩
      | some g =>
        have hsome : (strptime13 (g.take 13)).isSome = true := by
          have := hparse r (by simp)
          rw [hsearch] at this
          simpa [Option.all] using this
        rcases Option.isSome_iff_exists.mp hsome with ⟨u, hu⟩
        by_cases hlt : u.ltb time_max = true
        · have hstep : recurrenceScan time_max (r :: rest) = some true := by
            simp only [recurrenceScan]
            rw [if_pos hc, hsearch]
            simp only [hu]
            rw [if_pos hlt]
          rw [hstep]
          simp only [true_iff]
          exact ⟨r, by simp, hc, g, u, hsearch, hu, hlt⟩
        · have hstep : recurrenceScan time_max (r :: rest) = recurrenceScan time_max rest := by
            simp only [recurrenceScan]
            rw [if_pos hc, hsearch]
            simp only [hu]
            rw [if_neg hlt]
          rw [hstep, ih']
          constructor
          · rintro ⟨x, hx, hprop⟩; exact ⟨x, by simp [hx], hprop⟩
          · rintro ⟨x, hx, hcx, g', u', hg', hu', hlt'⟩
            rcases List.mem_cons.mp hx with hx | hx
            · subst hx
              rw [hsearch] at hg'; cases hg'
              rw [hu] at hu'; cases hu'
              exact absurd hlt' hlt
            · exact ⟨x, hx, hcx, g', u', hg', hu', hlt'⟩
    · have hstep : recurrenceScan time_max (r :: rest) = recurrenceScan time_max rest := by
        simp only [recurrenceScan]
        rw [if_neg hc]
      rw [hstep, ih']
      constructor
      · rintro ⟨x, hx, hprop⟩; exact ⟨x, by simp [hx], hprop⟩
      · rintro ⟨x, hx, hcx, hprop⟩
        rcases List.mem_cons.mp hx with hx | hx
        · subst hx; exact absurd hcx hc
        · exact ⟨x, hx, hcx, hprop⟩

/-- A deletion attempt whose identifier is already in the set returns
early: no external call, no status line, no state change (only the ghost
`attempts` field records the invocation). -/
theorem delete_event_skip (d : String → ApiResult) (confirm : Bool) (e : Event)
    (st : SweepSt) (hmem : st.deleted_events.contains e.id = true) :
    delete_event d confirm e st = some { st with attempts := st.attempts ++ [e.id] } := by
  have hm : e.id ∈ st.deleted_events := List.mem_of_elem_eq_true hmem
  simp [delete_event, hm]

/-- Unfolding of a non-skipped `_delete_event` call whose final
`_get_datetime` succeeds, with the mapping of call outcomes to result
strings written through `resultOf`. -/
theorem delete_event_fresh (d : String → ApiResult) (confirm : Bool) (e : Event)
    (st : SweepSt) (dt : PyDatetime)
    (hnew : st.deleted_events.contains e.id = false)
    (hdt : get_datetime e DTKey.start = some dt) :
    delete_event d confirm e st = some
      { st with
        attempts := st.attempts ++ [e.id]
        deleted_events :=
          if resultOf confirm (d e.id) = "DELETED" then st.deleted_events ++ [e.id]
          else st.deleted_events
        results := st.results ++ [(e.id, resultOf confirm (d e.id))]
        lines := st.lines ++ [statusLine (resultOf confirm (d e.id)) dt e]
        apiCalls := st.apiCalls ++ (if confirm then [e.id] else []) } := by
  have hnm : e.id ∉ st.deleted_events := by
    intro hm
    have hc : st.deleted_events.contains e.id = true := List.elem_eq_true_of_mem hm
    rw [hc] at hnew
    exact Bool.noConfusion hnew
  cases confirm with
  | false => simp [delete_event, hnm, hdt, resultOf]
  | true =>
    cases hc : d e.id with
    | ok => simp [delete_event, hnm, hdt, hc, resultOf]
    | httpError s =>
      by_cases h410 : s = 410
      · subst h410; simp [delete_event, hnm, hdt, hc, resultOf]
      · simp [delete_event, hnm, hdt, hc, resultOf, h410]
    | exn => simp [delete_event, hnm, hdt, hc, resultOf]

/-! ## The claims -/

/-- C1: for every event that has a `recurrence` field (and whose captured
`UNTIL` values all parse, so no exception escapes), `_event_is_passed`
returns `true` iff some recurrence rule string contains `RRULE` and an
`UNTIL` matching `\d{8}T\d{6}Z` whose first 13 characters parse under
`%Y%m%dT%H%M` to an instant strictly before `time_max`; in particular a
series with no such `UNTIL` in any rule is never classified passed, for
any `time_max`. -/
theorem C1_recurrence_until_classification (e : Event) (recs : List String)
    (time_max : PyDatetime) (hrec : e.recurrence = some recs)
    (hparse : ∀ r ∈ recs,
      ((reSearchUntil r.toList).all fun g => (strptime13 (g.take 13)).isSome) = true) :
    (event_is_passed e time_max = some true ↔
      ∃ r ∈ recs, containsSub "RRULE".toList r.toList = true ∧
        ∃ g u, reSearchUntil r.toList = some g ∧ strptime13 (g.take 13) = some u ∧
          u.ltb time_max = true) ∧
    ((∀ r ∈ recs, reSearchUntil r.toList = none) →
      event_is_passed e time_max = some false) := by
  constructor
  · rw [show event_is_passed e time_max = recurrenceScan time_max recs by
      simp [event_is_passed, hrec]]
    exact recurrenceScan_eq_true_iff time_max recs hparse
  · intro h
    rw [show event_is_passed e time_max = recurrenceScan time_max recs by
      simp [event_is_passed, hrec]]
    exact recurrenceScan_noUntil time_max recs h

/-- C1 witness: the sample series with `UNTIL=20170317T083000Z` is
classified passed for `time_max` 2017-03-18 and not for 2017-03-01. -/
theorem C1_recurrence_until_classification_witness :
    event_is_passed evRec tmax0 = some true ∧
    event_is_passed evRec tmaxEarly ≠ some true := by
  have h18 := (C1_recurrence_until_classification evRec
    ["RRULE:FREQ=WEEKLY;UNTIL=20170317T083000Z"] tmax0 rfl (by decide)).1
  have h01 := (C1_recurrence_until_classification evRec
    ["RRULE:FREQ=WEEKLY;UNTIL=20170317T083000Z"] tmaxEarly rfl (by decide)).1
  constructor
  · exact h18.mpr ⟨"RRULE:FREQ=WEEKLY;UNTIL=20170317T083000Z", by simp, by decide,
      "20170317T083000Z".toList, ⟨2017, 3, 17, 8, 30, 0⟩, by decide, by decide, by decide⟩
  · intro hcontra
    rcases h01.mp hcontra with ⟨r, hr, _, g, u, hg, hu, hlt⟩
    rcases List.mem_singleton.mp hr
    rw [show reSearchUntil "RRULE:FREQ=WEEKLY;UNTIL=20170317T083000Z".toList
        = some "20170317T083000Z".toList from by decide] at hg
    cases hg
    rw [show strptime13 ("20170317T083000Z".toList.take 13)
        = some ⟨2017, 3, 17, 8, 30, 0⟩ from by decide] at hu
    cases hu
    exact absurd hlt (by decide)

/-- C2: for every event without a `recurrence` field, `_event_is_passed`
returns `true` iff the event's end instant — parsed from the first 19
characters of its `dateTime` with `%Y-%m-%dT%H:%M:%S`, or from its all-day
`date` with `%Y-%m-%d` — is strictly before `time_max`. -/
theorem C2_end_instant_classification (e : Event) (et : EventTime)
    (time_max : PyDatetime) (hrec : e.recurrence = none) (hend : e.end_ = some et) :
    (∀ s, et.dateTime = some s →
      (event_is_passed e time_max = some true ↔
        ∃ d, strptimeISO19 (s.toList.take 19) = some d ∧ d.ltb time_max = true)) ∧
    (et.dateTime = none → ∀ s, et.date = some s →
      (event_is_passed e time_max = some true ↔
        ∃ d, strptimeDate s.toList = some d ∧ d.ltb time_max = true)) := by
  constructor
  · intro s hs
    simp [event_is_passed, get_datetime, hrec, hend, hs, Option.map_eq_some']
  · intro hnone s hs
    simp [event_is_passed, get_datetime, hrec, hend, hnone, hs, Option.map_eq_some']

/-- C2 witness: the sample plain event ending 2017-03-17T08:30 is passed
for `time_max` 2017-03-18. -/
theorem C2_end_instant_classification_witness :
    event_is_passed evA tmax0 = some true := by
  have h := (C2_end_instant_classification evA ⟨some "2017-03-17T08:30:00+01:00", none⟩
    tmax0 rfl rfl).1 "2017-03-17T08:30:00+01:00" rfl
  exact h.mpr ⟨⟨2017, 3, 17, 8, 30, 0⟩, by decide, by decide⟩

/-- C9: a recurring-series event none of whose rules carries an `UNTIL` in
the exact `\d{8}T\d{6}Z` form (for example the RFC 5545 date-only form
`UNTIL=20170317`) has no rule matched by the classification pattern, and
is never classified passed, for any `time_max`. -/
theorem C9_nonmatching_until_never_passed (e : Event) (recs : List String)
    (time_max : PyDatetime) (hrec : e.recurrence = some recs)
    (hnone : ∀ r ∈ recs, reSearchUntil r.toList = none) :
    event_is_passed e time_max = some false := by
  rw [show event_is_passed e time_max = recurrenceScan time_max recs by
    simp [event_is_passed, hrec]]
  exact recurrenceScan_noUntil time_max recs hnone

/-- C9 witness: the date-only `UNTIL=20170317` is not matched by the
pattern, so the sample series is not classified passed even for a
`time_max` far past its end. -/
theorem C9_nonmatching_until_never_passed_witness :
    event_is_passed evRecDateOnly tmax0 = some false :=
  C9_nonmatching_until_never_passed evRecDateOnly ["RRULE:FREQ=DAILY;UNTIL=20170317"]
    tmax0 rfl (by decide)

/-- C3 counterexample: when the external delete call raises a non-410
error, the identifier is not recorded in the Deleted-Set (line 145 of the
source sits after the raising call), so a second call with the same
identifier issues a second external delete call — not "at most one
external delete call per run" with a skipping second call. -/
theorem C3_cex_two_calls :
    ((delete_event dtestExn true evA initSt).bind (delete_event dtestExn true evA)).map
        SweepSt.apiCalls = some ["e1", "e1"] ∧
    decide ((["e1", "e1"] : List String).length ≤ 1) = false := by
  exact ⟨by decide, rfl⟩

/-- C3 (amended): calling the deletion operation twice with the same,
previously unseen, identifier results in at most one external delete call
provided the external call does not raise (or simulation mode is on): the
first call records the identifier, and the second call finds it in the
Deleted-Set and is a no-op — no API call, no status line, no state change
(only the ghost `attempts` field notes the invocation). -/
theorem C3_second_call_noop (d : String → ApiResult) (confirm : Bool) (e : Event)
    (st st1 : SweepSt)
    (hnew : st.deleted_events.contains e.id = false)
    (hok : d e.id = ApiResult.ok)
    (h : delete_event d confirm e st = some st1) :
    e.id ∈ st1.deleted_events ∧
    delete_event d confirm e st1 = some { st1 with attempts := st1.attempts ++ [e.id] } ∧
    st1.apiCalls = st.apiCalls ++ (if confirm then [e.id] else []) := by
  have hres : resultOf confirm (d e.id) = "DELETED" := by
    cases confirm <;> simp [resultOf, hok]
  have hfresh := delete_event_fresh d confirm e st
  rcases hdt : get_datetime e DTKey.start with _ | dt
  · rw [delete_event] at h
    simp only [hnew] at h
    rw [hdt] at h
    simp at h
  · rw [hfresh dt hnew hdt, Option.some_inj] at h
    subst h
    refine ⟨?_, ?_, ?_⟩
    · simp [hres]
    · exact delete_event_skip d confirm e _
        (List.elem_eq_true_of_mem (by simp [hres]))
    · rfl

/-- C3 witness: with a succeeding delete responder, the second call on the
already-recorded state is a pure no-op. -/
theorem C3_second_call_noop_witness :
    delete_event dtestOk true evA stC3 =
      some { stC3 with attempts := stC3.attempts ++ ["e1"] } :=
  (C3_second_call_noop dtestOk true evA initSt stC3 (by decide) rfl (by decide)).2.1

/-- C4: when the external delete call raises, `_delete_event` maps the
error to a result as follows: HTTP 410 yields `"ALREADY DELETED"` (not the
failure label), any other `HttpError` status and any other exception yield
the failure label (the source's literal is `"FAILED "`, with a trailing
space); in each case the function returns normally (`some`), with exactly
one status line recorded, so the sweep proceeds. -/
theorem C4_error_mapping (d : String → ApiResult) (e : Event) (st : SweepSt)
    (dt : PyDatetime)
    (hnew : st.deleted_events.contains e.id = false)
    (hdt : get_datetime e DTKey.start = some dt) :
    (d e.id = ApiResult.httpError 410 →
      delete_event d true e st = some
        { st with
          attempts := st.attempts ++ [e.id]
          results := st.results ++ [(e.id, "ALREADY DELETED")]
          lines := st.lines ++ [statusLine "ALREADY DELETED" dt e]
          apiCalls := st.apiCalls ++ [e.id] }) ∧
    (∀ s, s ≠ 410 → d e.id = ApiResult.httpError s →
      delete_event d true e st = some
        { st with
          attempts := st.attempts ++ [e.id]
          results := st.results ++ [(e.id, "FAILED ")]
          lines := st.lines ++ [statusLine "FAILED " dt e]
          apiCalls := st.apiCalls ++ [e.id] }) ∧
    (d e.id = ApiResult.exn →
      delete_event d true e st = some
        { st with
          attempts := st.attempts ++ [e.id]
          results := st.results ++ [(e.id, "FAILED ")]
          lines := st.lines ++ [statusLine "FAILED " dt e]
          apiCalls := st.apiCalls ++ [e.id] }) := by
  refine ⟨?_, ?_, ?_⟩
  · intro hc
    rw [delete_event_fresh d true e st dt hnew hdt]
    simp [resultOf, hc]
  · intro s hs hc
    rw [delete_event_fresh d true e st dt hnew hdt]
    simp [resultOf, hc, hs]
  · intro hc
    rw [delete_event_fresh d true e st dt hnew hdt]
    simp [resultOf, hc]

/-- C4 witness: on a 410 response the attempt on `evA` yields
`ALREADY DELETED` and the function returns normally. -/
theorem C4_error_mapping_witness :
    delete_event dtest410 true evA initSt = some
      { initSt with
        attempts := ["e1"]
        results := [("e1", "ALREADY DELETED")]
        lines := [statusLine "ALREADY DELETED" dtA evA]
        apiCalls := ["e1"] } :=
  (C4_error_mapping dtest410 evA initSt dtA (by decide) (by decide)).1 rfl

/-- C5 counterexample: a deletion attempt that receives HTTP 410 ends with
result `ALREADY DELETED` but does not add the identifier to the
Deleted-Set, contradicting "adds the event's identifier to the Deleted-Set
... in every outcome". -/
theorem C5_cex_not_added :
    (delete_event dtest410 true evA initSt).map
        (fun s => (s.results, s.deleted_events.contains "e1")) =
      some ([("e1", "ALREADY DELETED")], false) := by decide

/-- C5 (amended): every deletion attempt not skipped by the Deleted-Set
(and whose start date parses, so the final print does not raise) emits
exactly one status line `{result} - {event_date} - {recurrent_tag}{summary}`
with result among `DELETED`, `ALREADY DELETED` and the failure label
`"FAILED "` (trailing space in the source), in both confirmed and
simulation mode; the identifier is added to the Deleted-Set exactly when
the result is `DELETED` (success or simulation), not in the already-gone
and failure outcomes. -/
theorem C5_attempt_status_line (d : String → ApiResult) (confirm : Bool) (e : Event)
    (st : SweepSt) (dt : PyDatetime)
    (hnew : st.deleted_events.contains e.id = false)
    (hdt : get_datetime e DTKey.start = some dt) :
    ∃ res, (res = "DELETED" ∨ res = "ALREADY DELETED" ∨ res = "FAILED ") ∧
      delete_event d confirm e st = some
        { st with
          attempts := st.attempts ++ [e.id]
          deleted_events :=
            if res = "DELETED" then st.deleted_events ++ [e.id] else st.deleted_events
          results := st.results ++ [(e.id, res)]
          lines := st.lines ++ [statusLine res dt e]
          apiCalls := st.apiCalls ++ (if confirm then [e.id] else []) } := by
  refine ⟨resultOf confirm (d e.id), ?_, delete_event_fresh d confirm e st dt hnew hdt⟩
  cases confirm with
  | false => simp [resultOf]
  | true =>
    cases d e.id with
    | ok => simp [resultOf]
    | httpError s =>
      by_cases h410 : s = 410
      · subst h410; simp [resultOf]
      · simp [resultOf, h410]
    | exn => simp [resultOf]

/-- C5 witness: the simulation-mode attempt on `evA` from the initial
state, instantiating the amended statement. -/
theorem C5_attempt_status_line_witness :
    ∃ res, (res = "DELETED" ∨ res = "ALREADY DELETED" ∨ res = "FAILED ") ∧
      delete_event dtestExn false evA initSt = some
        { initSt with
          attempts := initSt.attempts ++ ["e1"]
          deleted_events :=
            if res = "DELETED" then initSt.deleted_events ++ ["e1"]
            else initSt.deleted_events
          results := initSt.results ++ [("e1", res)]
          lines := initSt.lines ++ [statusLine res dtA evA]
          apiCalls := initSt.apiCalls ++ (if false then ["e1"] else []) } :=
  C5_attempt_status_line dtestExn false evA initSt dtA (by decide) (by decide)

/-- Boolean negation of a `contains` test. -/
theorem contains_false_of_not {l : List String} {a : String}
    (h : ¬ l.contains a = true) : l.contains a = false := by
  cases hc : l.contains a
  · rfl
  · exact absurd hc h

/-- A list whose `contains` test is `false` does not hold the element. -/
theorem not_mem_of_contains_eq_false {l : List String} {a : String}
    (h : l.contains a = false) : a ∉ l := by
  intro hm
  have hc : l.contains a = true := List.elem_eq_true_of_mem hm
  rw [hc] at h
  exact Bool.noConfusion h

/-- A non-skipped `_delete_event` call whose final `_get_datetime` raises
propagates the exception. -/
theorem delete_event_none (d : String → ApiResult) (c : Bool) (e : Event) (st : SweepSt)
    (hnew : st.deleted_events.contains e.id = false)
    (hdt : get_datetime e DTKey.start = none) :
    delete_event d c e st = none := by
  have hnm := not_mem_of_contains_eq_false hnew
  simp [delete_event, hnm, hdt]

/-- Complete case analysis of a returning `_delete_event` call: either the
identifier was already recorded and the call was a pure no-op, or the call
was fresh and produced one result with the `resultOf` mapping. -/
theorem delete_event_eq_some (d : String → ApiResult) (c : Bool) (e : Event)
    (st s' : SweepSt) (h : delete_event d c e st = some s') :
    (st.deleted_events.contains e.id = true ∧
      s' = { st with attempts := st.attempts ++ [e.id] }) ∨
    (st.deleted_events.contains e.id = false ∧ ∃ dt,
      get_datetime e DTKey.start = some dt ∧
      s' = { st with
        attempts := st.attempts ++ [e.id]
        deleted_events :=
          if resultOf c (d e.id) = "DELETED" then st.deleted_events ++ [e.id]
          else st.deleted_events
        results := st.results ++ [(e.id, resultOf c (d e.id))]
        lines := st.lines ++ [statusLine (resultOf c (d e.id)) dt e]
        apiCalls := st.apiCalls ++ (if c then [e.id] else []) }) := by
  by_cases hmem : st.deleted_events.contains e.id = true
  · left
    refine ⟨hmem, ?_⟩
    rw [delete_event_skip d c e st hmem] at h
    exact (Option.some_inj.mp h).symm
  · right
    have hnew := contains_false_of_not hmem
    refine ⟨hnew, ?_⟩
    cases hdt : get_datetime e DTKey.start with
    | none => rw [delete_event_none d c e st hnew hdt] at h; cases h
    | some dt =>
      refine ⟨dt, rfl, ?_⟩
      rw [delete_event_fresh d c e st dt hnew hdt] at h
      exact (Option.some_inj.mp h).symm

/-- A `_delete_event` call returns (does not raise) whenever the event's
start parses, and it appends exactly the event's identifier to the ghost
`attempts` record while leaving `gets` and `requests` alone. -/
theorem delete_event_obs (d : String → ApiResult) (c : Bool) (e : Event) (st : SweepSt)
    (hdt : (get_datetime e DTKey.start).isSome = true) :
    ∃ s, delete_event d c e st = some s ∧ s.attempts = st.attempts ++ [e.id] ∧
      s.gets = st.gets ∧ s.requests = st.requests := by
  by_cases hmem : st.deleted_events.contains e.id = true
  · exact ⟨_, delete_event_skip d c e st hmem, rfl, rfl, rfl⟩
  · rcases Option.isSome_iff_exists.mp hdt with ⟨dt, hdt'⟩
    exact ⟨_, delete_event_fresh d c e st dt (contains_false_of_not hmem) hdt',
      rfl, rfl, rfl⟩

/-- C8: for every listed event carrying a `recurringEventId`,
`delete_events` fetches the parent series event by that identifier and
issues a deletion attempt for the parent exactly when the parent is
classified passed relative to `time_max`; independently of the parent's
outcome, a deletion attempt for the instance itself is issued exactly when
the instance is classified passed.  (The hypotheses give the two
classifications and ask that the start dates of whatever is deleted parse,
so neither attempt raises.) -/
theorem C8_recurring_parent_resolution (svc : Service) (confirm : Bool)
    (time_max : PyDatetime) (e : Event) (st : SweepSt) (rid : String) (pb eb : Bool)
    (hrid : e.recurringEventId = some rid)
    (hp : event_is_passed (svc.get rid) time_max = some pb)
    (he : event_is_passed e time_max = some eb)
    (hdp : pb = true → (get_datetime (svc.get rid) DTKey.start).isSome = true)
    (hde : eb = true → (get_datetime e DTKey.start).isSome = true) :
    ((process_event svc confirm time_max e st).map SweepSt.gets =
      some (st.gets ++ [rid])) ∧
    ((process_event svc confirm time_max e st).map SweepSt.attempts =
      some ((st.attempts ++ (if pb then [(svc.get rid).id] else []))
        ++ (if eb then [e.id] else []))) := by
  cases pb with
  | true =>
    rcases delete_event_obs svc.delete confirm (svc.get rid)
        { st with gets := st.gets ++ [rid] } (hdp rfl) with ⟨s1, h1, ha1, hg1, _⟩
    cases eb with
    | true =>
      rcases delete_event_obs svc.delete confirm e s1 (hde rfl) with ⟨s2, h2, ha2, hg2, _⟩
      have hrun : process_event svc confirm time_max e st = some s2 := by
        simp only [process_event, hrid, hp, he, h1, h2]
      rw [hrun]
      constructor
      · rw [Option.map_some']
        rw [hg2, hg1]
      · rw [Option.map_some']
        rw [ha2, ha1]
        simp
    | false =>
      have hrun : process_event svc confirm time_max e st = some s1 := by
        simp only [process_event, hrid, hp, he, h1]
      rw [hrun]
      constructor
      · rw [Option.map_some', hg1]
      · rw [Option.map_some', ha1]
        simp
  | false =>
    cases eb with
    | true =>
      rcases delete_event_obs svc.delete confirm e { st with gets := st.gets ++ [rid] }
          (hde rfl) with ⟨s2, h2, ha2, hg2, _⟩
      have hrun : process_event svc confirm time_max e st = some s2 := by
        simp only [process_event, hrid, hp, he, h2]
      rw [hrun]
      constructor
      · rw [Option.map_some', hg2]
      · rw [Option.map_some', ha2]
        simp
    | false =>
      have hrun : process_event svc confirm time_max e st =
          some { st with gets := st.gets ++ [rid] } := by
        simp only [process_event, hrid, hp, he]
      rw [hrun]
      constructor
      · rw [Option.map_some']
      · rw [Option.map_some']
        simp

/-- C8 witness: the instance `evInst` of the passed series `evRec` in the
two-page service `svc2`: the parent is fetched by `R` and both the parent
and the instance receive a deletion attempt. -/
theorem C8_recurring_parent_resolution_witness :
    ((process_event svc2 true tmax0 evInst initSt).map SweepSt.gets = some ["R"]) ∧
    ((process_event svc2 true tmax0 evInst initSt).map SweepSt.attempts =
      some ["R", "e2"]) :=
  C8_recurring_parent_resolution svc2 true tmax0 evInst initSt "R" true true rfl
    (by decide) (by decide) (fun _ => by decide) (fun _ => by decide)

/-- One `_delete_event` call only ever appends to the Deleted-Set. -/
theorem delete_event_deleted_append (d : String → ApiResult) (c : Bool) (e : Event)
    (st s' : SweepSt) (h : delete_event d c e st = some s') :
    ∃ l, s'.deleted_events = st.deleted_events ++ l := by
  rcases delete_event_eq_some d c e st s' h with ⟨_, rfl⟩ | ⟨_, dt, _, rfl⟩
  · exact ⟨[], by simp⟩
  · by_cases hres : resultOf c (d e.id) = "DELETED"
    · exact ⟨[e.id], by simp [hres]⟩
    · exact ⟨[], by simp [hres]⟩

/-- `DelInv` is preserved by one `_delete_event` call. -/
theorem delete_event_DelInv (d : String → ApiResult) (c : Bool) (e : Event)
    (st s' : SweepSt) (h : delete_event d c e st = some s') (hinv : DelInv st) :
    DelInv s' := by
  rcases delete_event_eq_some d c e st s' h with ⟨_, rfl⟩ | ⟨hnew, dt, _, rfl⟩
  · exact hinv
  · have hnm := not_mem_of_contains_eq_false hnew
    rcases hinv with ⟨heq, hnd⟩
    by_cases hres : resultOf c (d e.id) = "DELETED"
    · rw [DelInv]
      rw [hres]
      constructor
      · simp [List.filter_append, ← heq]
      · have hgoal : (st.deleted_events ++ [e.id]).Nodup := by
          rw [List.nodup_append]
          exact ⟨hnd, List.nodup_singleton _, fun a ha hb => by
            rw [List.mem_singleton] at hb
            subst hb
            exact hnm ha⟩
        simpa using hgoal
    · have hbeq : (resultOf c (d e.id) == "DELETED") = false :=
        beq_eq_false_iff_ne.mpr hres
      rw [DelInv]
      constructor
      · simp [List.filter_append, hres, hbeq, ← heq]
      · simp [hres, hnd]

/-- `DelInv` is preserved by the processing of one listed event. -/
theorem process_event_DelInv (svc : Service) (c : Bool) (tm : PyDatetime) (e : Event)
    (st s' : SweepSt) (h : process_event svc c tm e st = some s') (hinv : DelInv st) :
    DelInv s' := by
  cases hre : e.recurringEventId with
  | none =>
    simp only [process_event, hre] at h
    cases hpe : event_is_passed e tm with
    | none => simp only [hpe] at h; exact Option.noConfusion h
    | some b =>
      cases b with
      | true =>
        simp only [hpe] at h
        exact delete_event_DelInv _ _ _ _ _ h hinv
      | false =>
        simp only [hpe, Option.some_inj] at h
        subst h
        exact hinv
  | some rid =>
    simp only [process_event, hre] at h
    cases hpp : event_is_passed (svc.get rid) tm with
    | none => simp only [hpp] at h; exact Option.noConfusion h
    | some pb =>
      have hinv0 : DelInv { st with gets := st.gets ++ [rid] } := hinv
      cases pb with
      | false =>
        simp only [hpp] at h
        cases hpe : event_is_passed e tm with
        | none => simp only [hpe] at h; exact Option.noConfusion h
        | some b =>
          cases b with
          | true =>
            simp only [hpe] at h
            exact delete_event_DelInv _ _ _ _ _ h hinv0
          | false =>
            simp only [hpe, Option.some_inj] at h
            subst h
            exact hinv0
      | true =>
        simp only [hpp] at h
        cases hd1 : delete_event svc.delete c (svc.get rid)
            { st with gets := st.gets ++ [rid] } with
        | none => simp only [hd1] at h; exact Option.noConfusion h
        | some st1 =>
          simp only [hd1] at h
          have hinv1 : DelInv st1 := delete_event_DelInv _ _ _ _ _ hd1 hinv0
          cases hpe : event_is_passed e tm with
          | none => simp only [hpe] at h; exact Option.noConfusion h
          | some b =>
            cases b with
            | true =>
              simp only [hpe] at h
              exact delete_event_DelInv _ _ _ _ _ h hinv1
            | false =>
              simp only [hpe, Option.some_inj] at h
              subst h
              exact hinv1

/-- `DelInv` is preserved by the processing of a page of items. -/
theorem process_items_DelInv (svc : Service) (c : Bool) (tm : PyDatetime) :
    ∀ (items : List Event) (st s' : SweepSt),
      process_items svc c tm items st = some s' → DelInv st → DelInv s' := by
  intro items
  induction items with
  | nil =>
    intro st s' h hinv
    simp only [process_items, Option.some_inj] at h
    subst h
    exact hinv
  | cons e rest ih =>
    intro st s' h hinv
    simp only [process_items] at h
    cases he : process_event svc c tm e st with
    | none => simp only [he] at h; exact Option.noConfusion h
    | some st1 =>
      simp only [he] at h
      exact ih st1 s' h (process_event_DelInv svc c tm e st st1 he hinv)

/-- `DelInv` is preserved by the whole page loop. -/
theorem delete_events_DelInv (svc : Service) (tmin tmax : PyDatetime) (c : Bool) :
    ∀ (fuel : Nat) (tok : Option String) (st s' : SweepSt),
      delete_events svc tmin tmax c fuel tok st = some s' → DelInv st → DelInv s' := by
  intro fuel
  induction fuel with
  | zero => intro tok st s' h; cases h
  | succ fuel ih =>
    intro tok st s' h hinv
    simp only [delete_events] at h
    cases hpi : process_items svc c tmax
        (svc.list (mkListRequest tmin tmax tok)).items
        { st with requests := st.requests ++ [mkListRequest tmin tmax tok] } with
    | none => simp only [hpi] at h; exact Option.noConfusion h
    | some st1 =>
      simp only [hpi] at h
      have hinv1 : DelInv st1 := process_items_DelInv svc c tmax _ _ _ hpi hinv
      cases htok : (svc.list (mkListRequest tmin tmax tok)).nextPageToken with
      | none =>
        simp only [htok, Option.some_inj] at h
        subst h
        exact hinv1
      | some t =>
        simp only [htok] at h
        by_cases ht : t = ""
        · rw [if_pos ht, Option.some_inj] at h
          subst h
          exact hinv1
        · rw [if_neg ht] at h
          exact ih (some t) st1 s' h hinv1

/-- C10: the Deleted-Set grows monotonically (a `_delete_event` call never
removes an identifier), and after a completed run from the initial state
the set is exactly the list of identifiers whose deletion attempt ended in
the `DELETED` outcome (success, or simulation-recorded), without
duplicates — so the reported final count (`len(self.deleted_events)`)
equals the number of distinct such identifiers. -/
theorem C10_deleted_set_monotone_count (svc : Service) (time_min time_max : PyDatetime)
    (confirm : Bool) (fuel : Nat) (stF : SweepSt)
    (d : String → ApiResult) (c : Bool) (e : Event) (s s' : SweepSt)
    (hrun : delete_events svc time_min time_max confirm fuel none initSt = some stF)
    (hstep : delete_event d c e s = some s') :
    s'.deleted_events.take s.deleted_events.length = s.deleted_events ∧
    stF.deleted_events = (stF.results.filter (fun r => r.2 == "DELETED")).map Prod.fst ∧
    stF.deleted_events.Nodup ∧
    stF.deleted_events.length =
      ((stF.results.filter (fun r => r.2 == "DELETED")).map Prod.fst).dedup.length := by
  have hinitInv : DelInv initSt := ⟨rfl, List.nodup_nil⟩
  have hinv := delete_events_DelInv svc time_min time_max confirm fuel none initSt stF
    hrun hinitInv
  rcases hinv with ⟨heq, hnd⟩
  rcases delete_event_deleted_append d c e s s' hstep with ⟨l, hl⟩
  refine ⟨?_, heq, hnd, ?_⟩
  · rw [hl]
    exact List.take_left _ _
  · have hd : ((stF.results.filter (fun r => r.2 == "DELETED")).map Prod.fst).dedup =
        (stF.results.filter (fun r => r.2 == "DELETED")).map Prod.fst :=
      List.dedup_eq_self.mpr (heq ▸ hnd)
    rw [hd, heq]

/-- C10 witness: the confirmed two-page run over `svc2` ends with the set
`["e1", "R", "e2"]`, exactly the DELETED results, and a single successful
deletion step from the initial state only appends. -/
theorem C10_deleted_set_monotone_count_witness :
    stC3.deleted_events.take initSt.deleted_events.length = initSt.deleted_events ∧
    stW.deleted_events = (stW.results.filter (fun r => r.2 == "DELETED")).map Prod.fst ∧
    stW.deleted_events.Nodup ∧
    stW.deleted_events.length =
      ((stW.results.filter (fun r => r.2 == "DELETED")).map Prod.fst).dedup.length :=
  C10_deleted_set_monotone_count svc2 tmin0 tmax0 true 2 stW dtestOk true evA initSt stC3
    (by decide) (by decide)

/-- A simulation-mode `_delete_event` call never issues an external delete
call. -/
theorem delete_event_sim_api (d : String → ApiResult) (e : Event) (st s : SweepSt)
    (h : delete_event d false e st = some s) : s.apiCalls = st.apiCalls := by
  rcases delete_event_eq_some d false e st s h with ⟨_, rfl⟩ | ⟨_, dt, _, rfl⟩
  · rfl
  · simp

/-- A simulation-mode `process_event` never issues an external delete
call. -/
theorem process_event_sim_api (svc : Service) (tm : PyDatetime) (e : Event)
    (st s : SweepSt) (h : process_event svc false tm e st = some s) :
    s.apiCalls = st.apiCalls := by
  cases hre : e.recurringEventId with
  | none =>
    simp only [process_event, hre] at h
    cases hpe : event_is_passed e tm with
    | none => simp only [hpe] at h; exact Option.noConfusion h
    | some b =>
      cases b with
      | true =>
        simp only [hpe] at h
        exact delete_event_sim_api _ _ _ _ h
      | false =>
        simp only [hpe, Option.some_inj] at h
        subst h; rfl
  | some rid =>
    simp only [process_event, hre] at h
    cases hpp : event_is_passed (svc.get rid) tm with
    | none => simp only [hpp] at h; exact Option.noConfusion h
    | some pb =>
      cases pb with
      | false =>
        simp only [hpp] at h
        cases hpe : event_is_passed e tm with
        | none => simp only [hpe] at h; exact Option.noConfusion h
        | some b =>
          cases b with
          | true =>
            simp only [hpe] at h
            have hx := delete_event_sim_api _ _ _ _ h
            exact hx
          | false =>
            simp only [hpe, Option.some_inj] at h
            subst h; rfl
      | true =>
        simp only [hpp] at h
        cases hd1 : delete_event svc.delete false (svc.get rid)
            { st with gets := st.gets ++ [rid] } with
        | none => simp only [hd1] at h; exact Option.noConfusion h
        | some st1 =>
          simp only [hd1] at h
          have hx := delete_event_sim_api _ _ _ _ hd1
          have hapi1 : st1.apiCalls = st.apiCalls := hx
          cases hpe : event_is_passed e tm with
          | none => simp only [hpe] at h; exact Option.noConfusion h
          | some b =>
            cases b with
            | true =>
              simp only [hpe] at h
              rw [delete_event_sim_api _ _ _ _ h]
              exact hapi1
            | false =>
              simp only [hpe, Option.some_inj] at h
              subst h; exact hapi1

/-- A simulation-mode page of items never issues an external delete
call. -/
theorem process_items_sim_api (svc : Service) (tm : PyDatetime) :
    ∀ (items : List Event) (st s : SweepSt),
      process_items svc false tm items st = some s → s.apiCalls = st.apiCalls := by
  intro items
  induction items with
  | nil =>
    intro st s h
    simp only [process_items, Option.some_inj] at h
    subst h; rfl
  | cons e rest ih =>
    intro st s h
    simp only [process_items] at h
    cases he : process_event svc false tm e st with
    | none => simp only [he] at h; exact Option.noConfusion h
    | some st1 =>
      simp only [he] at h
      rw [ih st1 s h]
      exact process_event_sim_api svc tm e st st1 he

/-- A simulation-mode run of the page loop issues zero external delete
calls. -/
theorem delete_events_sim_api (svc : Service) (tmin tmax : PyDatetime) :
    ∀ (fuel : Nat) (tok : Option String) (st s : SweepSt),
      delete_events svc tmin tmax false fuel tok st = some s →
      s.apiCalls = st.apiCalls := by
  intro fuel
  induction fuel with
  | zero => intro tok st s h; cases h
  | succ fuel ih =>
    intro tok st s h
    simp only [delete_events] at h
    cases hpi : process_items svc false tmax
        (svc.list (mkListRequest tmin tmax tok)).items
        { st with requests := st.requests ++ [mkListRequest tmin tmax tok] } with
    | none => simp only [hpi] at h; exact Option.noConfusion h
    | some st1 =>
      simp only [hpi] at h
      have hx := process_items_sim_api svc tmax _ _ _ hpi
      have hapi1 : st1.apiCalls = st.apiCalls := hx
      cases htok : (svc.list (mkListRequest tmin tmax tok)).nextPageToken with
      | none =>
        simp only [htok, Option.some_inj] at h
        subst h; exact hapi1
      | some t =>
        simp only [htok] at h
        by_cases ht : t = ""
        · rw [if_pos ht, Option.some_inj] at h
          subst h; exact hapi1
        · rw [if_neg ht] at h
          rw [ih (some t) st1 s h]
          exact hapi1

/-- One deletion step compared across modes: simulation on the left,
confirmed with a succeeding delete call on the right, from states with
equal observables. -/
theorem delete_event_mode (d d' : String → ApiResult) (e : Event) (st st' : SweepSt)
    (hok : d' e.id = ApiResult.ok) (h : ModeEq st st') :
    ModeEqO (delete_event d false e st) (delete_event d' true e st') := by
  obtain ⟨h1, h2, h3, h4, h5, h6⟩ := h
  by_cases hmem : st.deleted_events.contains e.id = true
  · have hmem' : st'.deleted_events.contains e.id = true := by rw [← h1]; exact hmem
    rw [delete_event_skip d false e st hmem, delete_event_skip d' true e st' hmem']
    exact ⟨h1, by rw [h2], h3, h4, h5, h6⟩
  · have hnew := contains_false_of_not hmem
    have hnew' : st'.deleted_events.contains e.id = false := by rw [← h1]; exact hnew
    cases hdt : get_datetime e DTKey.start with
    | none =>
      rw [delete_event_none d false e st hnew hdt,
        delete_event_none d' true e st' hnew' hdt]
      trivial
    | some dt =>
      rw [delete_event_fresh d false e st dt hnew hdt,
        delete_event_fresh d' true e st' dt hnew' hdt]
      have hres : resultOf true (d' e.id) = resultOf false (d e.id) := by
        simp [resultOf, hok]
      exact ⟨by rw [hres, h1], by rw [h2], by rw [hres, h3], by rw [hres, h4], h5, h6⟩

/-- One listed event processed across modes (the confirmed side runs
against the all-success service `svcOk svc`). -/
theorem process_event_mode (svc : Service) (tm : PyDatetime) (e : Event)
    (st st' : SweepSt) (h : ModeEq st st') :
    ModeEqO (process_event svc false tm e st)
      (process_event (svcOk svc) true tm e st') := by
  have hget : (svcOk svc).get = svc.get := rfl
  cases hre : e.recurringEventId with
  | none =>
    simp only [process_event, hre, hget]
    cases hpe : event_is_passed e tm with
    | none => trivial
    | some b =>
      cases b with
      | true => exact delete_event_mode svc.delete (svcOk svc).delete e st st' rfl h
      | false => exact h
  | some rid =>
    have hst0 : ModeEq { st with gets := st.gets ++ [rid] }
        { st' with gets := st'.gets ++ [rid] } := by
      obtain ⟨h1, h2, h3, h4, h5, h6⟩ := h
      exact ⟨h1, h2, h3, h4, by rw [h5], h6⟩
    simp only [process_event, hre, hget]
    cases hpp : event_is_passed (svc.get rid) tm with
    | none => trivial
    | some pb =>
      cases pb with
      | false =>
        cases hpe : event_is_passed e tm with
        | none => trivial
        | some b =>
          cases b with
          | true =>
            exact delete_event_mode svc.delete (svcOk svc).delete e _ _ rfl hst0
          | false => exact hst0
      | true =>
        have hd := delete_event_mode svc.delete (svcOk svc).delete (svc.get rid)
          { st with gets := st.gets ++ [rid] } { st' with gets := st'.gets ++ [rid] }
          rfl hst0
        cases ho : delete_event svc.delete false (svc.get rid)
            { st with gets := st.gets ++ [rid] } with
        | none =>
          cases ho' : delete_event (svcOk svc).delete true (svc.get rid)
              { st' with gets := st'.gets ++ [rid] } with
          | none => trivial
          | some s1' => rw [ho, ho'] at hd; exact hd.elim
        | some s1 =>
          cases ho' : delete_event (svcOk svc).delete true (svc.get rid)
              { st' with gets := st'.gets ++ [rid] } with
          | none => rw [ho, ho'] at hd; exact hd.elim
          | some s1' =>
            rw [ho, ho'] at hd
            cases hpe : event_is_passed e tm with
            | none => trivial
            | some b =>
              cases b with
              | true => exact delete_event_mode svc.delete (svcOk svc).delete e s1 s1' rfl hd
              | false => exact hd

/-- A page of items processed across modes. -/
theorem process_items_mode (svc : Service) (tm : PyDatetime) :
    ∀ (items : List Event) (st st' : SweepSt), ModeEq st st' →
      ModeEqO (process_items svc false tm items st)
        (process_items (svcOk svc) true tm items st') := by
  intro items
  induction items with
  | nil => intro st st' h; exact h
  | cons e rest ih =>
    intro st st' h
    have hpe := process_event_mode svc tm e st st' h
    simp only [process_items]
    cases ho : process_event svc false tm e st with
    | none =>
      cases ho' : process_event (svcOk svc) true tm e st' with
      | none => trivial
      | some s1' => rw [ho, ho'] at hpe; exact hpe.elim
    | some s1 =>
      cases ho' : process_event (svcOk svc) true tm e st' with
      | none => rw [ho, ho'] at hpe; exact hpe.elim
      | some s1' =>
        rw [ho, ho'] at hpe
        exact ih s1 s1' hpe

/-- The whole page loop compared across modes. -/
theorem delete_events_mode (svc : Service) (tmin tmax : PyDatetime) :
    ∀ (fuel : Nat) (tok : Option String) (st st' : SweepSt), ModeEq st st' →
      ModeEqO (delete_events svc tmin tmax false fuel tok st)
        (delete_events (svcOk svc) tmin tmax true fuel tok st') := by
  intro fuel
  induction fuel with
  | zero => intro tok st st' h; trivial
  | succ fuel ih =>
    intro tok st st' h
    have hlist : (svcOk svc).list = svc.list := rfl
    have hreq : ModeEq { st with requests := st.requests ++ [mkListRequest tmin tmax tok] }
        { st' with requests := st'.requests ++ [mkListRequest tmin tmax tok] } := by
      obtain ⟨h1, h2, h3, h4, h5, h6⟩ := h
      exact ⟨h1, h2, h3, h4, h5, by rw [h6]⟩
    have hpi := process_items_mode svc tmax (svc.list (mkListRequest tmin tmax tok)).items
      _ _ hreq
    simp only [delete_events, hlist]
    cases ho : process_items svc false tmax (svc.list (mkListRequest tmin tmax tok)).items
        { st with requests := st.requests ++ [mkListRequest tmin tmax tok] } with
    | none =>
      cases ho' : process_items (svcOk svc) true tmax
          (svc.list (mkListRequest tmin tmax tok)).items
          { st' with requests := st'.requests ++ [mkListRequest tmin tmax tok] } with
      | none => trivial
      | some s1' => rw [ho, ho'] at hpi; exact hpi.elim
    | some s1 =>
      cases ho' : process_items (svcOk svc) true tmax
          (svc.list (mkListRequest tmin tmax tok)).items
          { st' with requests := st'.requests ++ [mkListRequest tmin tmax tok] } with
      | none => rw [ho, ho'] at hpi; exact hpi.elim
      | some s1' =>
        rw [ho, ho'] at hpi
        cases (svc.list (mkListRequest tmin tmax tok)).nextPageToken with
        | none => exact hpi
        | some t =>
          simp only []
          by_cases ht : t = ""
          · rw [if_pos ht, if_pos ht]
            exact hpi
          · rw [if_neg ht, if_neg ht]
            exact ih (some t) s1 s1' hpi

/-- C6 counterexample: with a service whose delete call raises, a
confirmed full sweep prints a FAILED line and records nothing, while the
simulation sweep prints a DELETED line and records the identifier — so
simulation output and Deleted-Set are not the same as confirmed mode in
general. -/
theorem C6_cex_failed_run_differs :
    (delete_events svcBad tmin0 tmax0 false 1 none initSt).map SweepSt.lines =
      some ["DELETED - 2017-03-17 08:00:00 - Past event"] ∧
    (delete_events svcBad tmin0 tmax0 true 1 none initSt).map SweepSt.lines =
      some ["FAILED  - 2017-03-17 08:00:00 - Past event"] ∧
    (delete_events svcBad tmin0 tmax0 false 1 none initSt).map SweepSt.deleted_events =
      some ["e1"] ∧
    (delete_events svcBad tmin0 tmax0 true 1 none initSt).map SweepSt.deleted_events =
      some [] := by
  exact ⟨by decide, by decide, by decide, by decide⟩

/-- C6 (amended): a full sweep in simulation mode issues zero external
delete calls, and its classification, console output, Deleted-Set (and
hence final count) and remaining observables are the same as those of a
confirmed-mode sweep in which every external delete call succeeds
(`svcOk`): either both runs raise, or they return states equal in every
field but the external delete calls. -/
theorem C6_simulation_mode (svc : Service) (time_min time_max : PyDatetime) (fuel : Nat)
    (tok : Option String) (st st' : SweepSt) (hmode : ModeEq st st') :
    ModeEqO (delete_events svc time_min time_max false fuel tok st)
      (delete_events (svcOk svc) time_min time_max true fuel tok st') ∧
    (∀ s, delete_events svc time_min time_max false fuel tok st = some s →
      s.apiCalls = st.apiCalls) :=
  ⟨delete_events_mode svc time_min time_max fuel tok st st' hmode,
    fun s hs => delete_events_sim_api svc time_min time_max fuel tok st s hs⟩

/-- C6 witness: over the two-page service, the simulation run from the
initial state matches the all-success confirmed run observable for
observable and issues no external delete call. -/
theorem C6_simulation_mode_witness :
    ModeEqO (delete_events svc2 tmin0 tmax0 false 2 none initSt)
      (delete_events (svcOk svc2) tmin0 tmax0 true 2 none initSt) ∧
    (∀ s, delete_events svc2 tmin0 tmax0 false 2 none initSt = some s →
      s.apiCalls = initSt.apiCalls) :=
  C6_simulation_mode svc2 tmin0 tmax0 2 none initSt initSt ⟨rfl, rfl, rfl, rfl, rfl, rfl⟩

/-- `_delete_event` never touches the record of list requests. -/
theorem delete_event_requests (d : String → ApiResult) (c : Bool) (e : Event)
    (st s' : SweepSt) (h : delete_event d c e st = some s') :
    s'.requests = st.requests := by
  rcases delete_event_eq_some d c e st s' h with ⟨_, rfl⟩ | ⟨_, dt, _, rfl⟩ <;> rfl

/-- Processing one listed event never touches the record of list
requests. -/
theorem process_event_requests (svc : Service) (c : Bool) (tm : PyDatetime) (e : Event)
    (st s' : SweepSt) (h : process_event svc c tm e st = some s') :
    s'.requests = st.requests := by
  cases hre : e.recurringEventId with
  | none =>
    simp only [process_event, hre] at h
    cases hpe : event_is_passed e tm with
    | none => simp only [hpe] at h; exact Option.noConfusion h
    | some b =>
      cases b with
      | true =>
        simp only [hpe] at h
        exact delete_event_requests _ _ _ _ _ h
      | false =>
        simp only [hpe, Option.some_inj] at h
        subst h; rfl
  | some rid =>
    simp only [process_event, hre] at h
    cases hpp : event_is_passed (svc.get rid) tm with
    | none => simp only [hpp] at h; exact Option.noConfusion h
    | some pb =>
      cases pb with
      | false =>
        simp only [hpp] at h
        cases hpe : event_is_passed e tm with
        | none => simp only [hpe] at h; exact Option.noConfusion h
        | some b =>
          cases b with
          | true =>
            simp only [hpe] at h
            have hx := delete_event_requests _ _ _ _ _ h
            exact hx
          | false =>
            simp only [hpe, Option.some_inj] at h
            subst h; rfl
      | true =>
        simp only [hpp] at h
        cases hd1 : delete_event svc.delete c (svc.get rid)
            { st with gets := st.gets ++ [rid] } with
        | none => simp only [hd1] at h; exact Option.noConfusion h
        | some st1 =>
          simp only [hd1] at h
          have hx := delete_event_requests _ _ _ _ _ hd1
          have hr1 : st1.requests = st.requests := hx
          cases hpe : event_is_passed e tm with
          | none => simp only [hpe] at h; exact Option.noConfusion h
          | some b =>
            cases b with
            | true =>
              simp only [hpe] at h
              rw [delete_event_requests _ _ _ _ _ h]
              exact hr1
            | false =>
              simp only [hpe, Option.some_inj] at h
              subst h; exact hr1

/-- Processing a page of items never touches the record of list
requests. -/
theorem process_items_requests (svc : Service) (c : Bool) (tm : PyDatetime) :
    ∀ (items : List Event) (st s' : SweepSt),
      process_items svc c tm items st = some s' → s'.requests = st.requests := by
  intro items
  induction items with
  | nil =>
    intro st s' h
    simp only [process_items, Option.some_inj] at h
    subst h; rfl
  | cons e rest ih =>
    intro st s' h
    simp only [process_items] at h
    cases he : process_event svc c tm e st with
    | none => simp only [he] at h; exact Option.noConfusion h
    | some st1 =>
      simp only [he] at h
      rw [ih st1 s' h]
      exact process_event_requests svc c tm e st st1 he

/-- The state chain succeeding at `k + 1` means it succeeded at `k`. -/
theorem stChain_some_step (svc : Service) (tmin tmax : PyDatetime) (c : Bool) (k : Nat)
    (st' : SweepSt) (h : stChain svc tmin tmax c (k + 1) = some st') :
    ∃ st, stChain svc tmin tmax c k = some st := by
  simp only [stChain] at h
  cases hk : stChain svc tmin tmax c k with
  | none => rw [hk] at h; cases h
  | some st => exact ⟨st, rfl⟩

/-- The state chain succeeding at `k` means it succeeded at every earlier
index. -/
theorem stChain_some_le (svc : Service) (tmin tmax : PyDatetime) (c : Bool) :
    ∀ (k j : Nat), j ≤ k → (∃ st, stChain svc tmin tmax c k = some st) →
      ∃ st, stChain svc tmin tmax c j = some st := by
  intro k
  induction k with
  | zero =>
    intro j hj h
    have hz := Nat.le_zero.mp hj
    subst hz
    exact h
  | succ k ih =>
    intro j hj h
    rcases Nat.lt_or_ge j (k + 1) with hlt | hge
    · rcases h with ⟨st', h⟩
      exact ih j (Nat.lt_succ_iff.mp hlt) (stChain_some_step svc tmin tmax c k st' h)
    · have hje : j = k + 1 := Nat.le_antisymm hj hge
      subst hje
      exact h

/-- The processing equation hidden in one step of the state chain. -/
theorem stChain_proc (svc : Service) (tmin tmax : PyDatetime) (c : Bool) (k : Nat)
    (st st' : SweepSt) (hk : stChain svc tmin tmax c k = some st)
    (h : stChain svc tmin tmax c (k + 1) = some st') :
    process_items svc c tmax
      (svc.list (mkListRequest tmin tmax (tokChain svc tmin tmax k))).items
      { st with requests :=
          st.requests ++ [mkListRequest tmin tmax (tokChain svc tmin tmax k)] } =
      some st' := by
  simp only [stChain, hk] at h
  exact h

/-- Every list request recorded along the state chain was built by
`mkListRequest` for some continuation token. -/
theorem stChain_requests (svc : Service) (tmin tmax : PyDatetime) (c : Bool) :
    ∀ (k : Nat) (st : SweepSt), stChain svc tmin tmax c k = some st →
      ∀ r ∈ st.requests, ∃ tok, r = mkListRequest tmin tmax tok := by
  intro k
  induction k with
  | zero =>
    intro st h r hr
    simp only [stChain, Option.some_inj] at h
    subst h
    exact absurd hr (List.not_mem_nil r)
  | succ k ih =>
    intro st' h r hr
    rcases stChain_some_step svc tmin tmax c k st' h with ⟨st, hk⟩
    have hproc := stChain_proc svc tmin tmax c k st st' hk h
    have hx := process_items_requests svc c tmax _ _ _ hproc
    have hreq : st'.requests =
        st.requests ++ [mkListRequest tmin tmax (tokChain svc tmin tmax k)] := hx
    rw [hreq] at hr
    rcases List.mem_append.mp hr with hr | hr
    · exact ih st hk r hr
    · rw [List.mem_singleton] at hr
      exact ⟨_, hr⟩

/-- Advancing the page loop over the first `k` pages, all of whose
responses carry a truthy continuation token: the loop neither stops nor
runs dry before page `k`, whatever fuel is left. -/
theorem delete_events_advance (svc : Service) (tmin tmax : PyDatetime) (c : Bool) :
    ∀ (k : Nat), (∀ j, j < k → tokFalsy (tokChain svc tmin tmax (j + 1)) = false) →
      ∀ (st : SweepSt), stChain svc tmin tmax c k = some st →
      ∀ (fuel : Nat),
        delete_events svc tmin tmax c (fuel + 1 + k) none initSt =
        delete_events svc tmin tmax c (fuel + 1) (tokChain svc tmin tmax k) st := by
  intro k
  induction k with
  | zero =>
    intro _ st h fuel
    simp only [stChain, Option.some_inj] at h
    subst h
    rfl
  | succ k ih =>
    intro htrue st' h fuel
    rcases stChain_some_step svc tmin tmax c k st' h with ⟨st, hk⟩
    have hproc := stChain_proc svc tmin tmax c k st st' hk h
    have htrue' : ∀ j, j < k → tokFalsy (tokChain svc tmin tmax (j + 1)) = false :=
      fun j hj => htrue j (Nat.lt_succ_of_lt hj)
    have hk1 : tokFalsy (tokChain svc tmin tmax (k + 1)) = false :=
      htrue k (Nat.lt_succ_self k)
    rcases (tokFalsy_eq_false_iff _).mp hk1 with ⟨t, ht, htne⟩
    have heq : fuel + 1 + (k + 1) = (fuel + 1) + 1 + k := by omega
    rw [heq, ih htrue' st hk (fuel + 1)]
    simp only [delete_events, hproc]
    have ht2 : (svc.list (mkListRequest tmin tmax (tokChain svc tmin tmax k))).nextPageToken
        = some t := ht
    rw [ht2, ht]
    simp only []
    rw [if_neg htne]

/-- C7: the page loop of `delete_events` terminates exactly when the
continuation token returned by the listing call is absent or empty,
regardless of the number of pages — with enough fuel it stops precisely
after the first page whose token is falsy, and with fuel not exceeding the
number of preceding truthy-token pages it is still running — and every
listing request it issues goes to the `primary` calendar over
`[time_min, time_max]` (as UTC, `Z`-suffixed isoformat), bounded to 100
items, single-instance-expanded, ordered by start time. -/
theorem C7_pagination_termination (svc : Service) (time_min time_max : PyDatetime)
    (confirm : Bool) (k fuel : Nat) (stF : SweepSt) (r : ListRequest)
    (htrue : ∀ j, j < k → tokFalsy (tokChain svc time_min time_max (j + 1)) = false)
    (hstop : tokFalsy (tokChain svc time_min time_max (k + 1)) = true)
    (hok : stChain svc time_min time_max confirm (k + 1) = some stF) :
    (k < fuel →
      delete_events svc time_min time_max confirm fuel none initSt = some stF) ∧
    (fuel ≤ k →
      delete_events svc time_min time_max confirm fuel none initSt = none) ∧
    (r ∈ stF.requests → r.calendarId = "primary" ∧ r.maxResults = 100 ∧
      r.singleEvents = true ∧ r.orderBy = "startTime" ∧
      r.timeMin = time_min.isoformat ++ "Z" ∧ r.timeMax = time_max.isoformat ++ "Z") := by
  refine ⟨?_, ?_, ?_⟩
  · intro hfuel
    rcases stChain_some_step svc time_min time_max confirm k stF hok with ⟨st, hk⟩
    have hproc := stChain_proc svc time_min time_max confirm k st stF hk hok
    have heq : fuel = (fuel - k - 1) + 1 + k := by omega
    rw [heq,
      delete_events_advance svc time_min time_max confirm k htrue st hk (fuel - k - 1)]
    simp only [delete_events, hproc]
    cases htokv : tokChain svc time_min time_max (k + 1) with
    | none =>
      have ht2 : (svc.list (mkListRequest time_min time_max
          (tokChain svc time_min time_max k))).nextPageToken = none := htokv
      rw [ht2]
    | some t =>
      have hte : t = "" := by
        rw [htokv] at hstop
        simpa [tokFalsy] using hstop
      have ht2 : (svc.list (mkListRequest time_min time_max
          (tokChain svc time_min time_max k))).nextPageToken = some t := htokv
      rw [ht2]
      simp only []
      rw [if_pos hte]
  · intro hfuel
    cases fuel with
    | zero => rfl
    | succ f =>
      have hflt : f < k := by omega
      have htrue' : ∀ j, j < f → tokFalsy (tokChain svc time_min time_max (j + 1)) = false :=
        fun j hj => htrue j (by omega)
      rcases stChain_some_le svc time_min time_max confirm (k + 1) f (by omega)
          ⟨stF, hok⟩ with ⟨st, hf⟩
      rcases stChain_some_le svc time_min time_max confirm (k + 1) (f + 1) (by omega)
          ⟨stF, hok⟩ with ⟨st1, hf1⟩
      have hproc := stChain_proc svc time_min time_max confirm f st st1 hf hf1
      have heq : f + 1 = 0 + 1 + f := by omega
      rw [heq, delete_events_advance svc time_min time_max confirm f htrue' st hf 0]
      simp only [delete_events, hproc]
      have hk1 : tokFalsy (tokChain svc time_min time_max (f + 1)) = false :=
        htrue f hflt
      rcases (tokFalsy_eq_false_iff _).mp hk1 with ⟨t, ht, htne⟩
      have ht2 : (svc.list (mkListRequest time_min time_max
          (tokChain svc time_min time_max f))).nextPageToken = some t := ht
      rw [ht2]
      simp only []
      rw [if_neg htne]
  · intro hr
    rcases stChain_requests svc time_min time_max confirm (k + 1) stF hok r hr
      with ⟨tok, rfl⟩
    exact ⟨rfl, rfl, rfl, rfl, rfl, rfl⟩

/-- C7 witness: the two-page service `svc2` (truthy token `T2` after page
one, no token after page two): with fuel 2 the loop returns the final
state `stW`, with fuel 1 it is still running, and the recorded first
request carries the constant listing parameters. -/
theorem C7_pagination_termination_witness :
    (1 < 2 → delete_events svc2 tmin0 tmax0 true 2 none initSt = some stW) ∧
    (2 ≤ 1 → delete_events svc2 tmin0 tmax0 true 2 none initSt = none) ∧
    (mkListRequest tmin0 tmax0 none ∈ stW.requests →
      (mkListRequest tmin0 tmax0 none).calendarId = "primary" ∧
      (mkListRequest tmin0 tmax0 none).maxResults = 100 ∧
      (mkListRequest tmin0 tmax0 none).singleEvents = true ∧
      (mkListRequest tmin0 tmax0 none).orderBy = "startTime" ∧
      (mkListRequest tmin0 tmax0 none).timeMin = tmin0.isoformat ++ "Z" ∧
      (mkListRequest tmin0 tmax0 none).timeMax = tmax0.isoformat ++ "Z") :=
  C7_pagination_termination svc2 tmin0 tmax0 true 1 2 stW
    (mkListRequest tmin0 tmax0 none) (by decide) (by decide) (by decide)

end EventsDeletion
